import Mathlib

/-!
Verification development for the `build-lock-log` repository: a shallow
embedding of the `BuildExpenseLedger` Solidity contract and of the
client-side orchestration logic in `useExpenseLedger.tsx`, together with
proofs about the claims of the specification.

The contract stores, per user address, an encrypted (FHE) running total of
expense amounts and an append-only list of plaintext expense records.
The FHE library itself (`FHE.fromExternal`, `FHE.add`, `FHE.allow`) lives
outside this repository; it is modelled here from the specification as a
handle environment mapping ciphertext handles to 32-bit plaintexts, with
homomorphic addition allocating a fresh handle holding the wrapped sum.
-/

namespace BuildExpenseLedger

/-!
Account addresses and ciphertext handles (`euint32` / `bytes32` values)
are both modelled as `Nat`.  Handle `0` is the all-zero sentinel that
Solidity mapping defaults produce for users whose ledger was never
touched.
-/

/-- Modelled from the spec: the state of the external FHE coprocessor,
which is not part of this repository.  `plain h` is the 32-bit plaintext
behind an allocated handle `h`; `acl h a` says address `a` has been granted
decryption rights over `h`; `nextHandle` is the next fresh handle (kept
positive so the zero sentinel is never allocated). -/
structure FheEnv where
  plain : Nat → Nat
  acl : Nat → Nat → Bool
  nextHandle : Nat

/-- Allocate a fresh handle holding `v` reduced to 32 bits (the ciphertext
type is `euint32`, an encrypted 32-bit unsigned integer). -/
def FheEnv.alloc (env : FheEnv) (v : Nat) : Nat × FheEnv :=
  (env.nextHandle,
   { plain := fun h => if h = env.nextHandle then v % 2 ^ 32 else env.plain h
     acl := env.acl
     nextHandle := env.nextHandle + 1 })

/-- An `externalEuint32` input together with its validity proof, as produced
client-side by `createEncryptedInput(contract, user).add32(value).encrypt()`.
`value` is the plaintext the ciphertext encodes; `proofValid` records
whether the accompanying proof verifies against the
(ciphertext, caller, contract address) triple. -/
structure ExternalEuint32 where
  value : Nat
  proofValid : Bool

/-- Modelled from the spec: `FHE.fromExternal(encryptedAmount, inputProof)`
(external FHE library).  Verifies the proof against the ciphertext and,
on success, converts the external ciphertext into an internal handle;
the whole transaction reverts when the proof does not verify. -/
def fromExternal (env : FheEnv) (e : ExternalEuint32) : Option (Nat × FheEnv) :=
  if e.proofValid then some (env.alloc e.value) else none

/-- Modelled from the spec: `FHE.add` — homomorphic addition of two
`euint32` ciphertexts.  It yields a fresh ciphertext (the encrypted value
identity changes after each addition) whose plaintext is the sum of the two
plaintexts, wrapped to 32 bits; no decryption occurs. -/
def fheAdd (env : FheEnv) (a b : Nat) : Nat × FheEnv :=
  env.alloc (env.plain a + env.plain b)

/-- Modelled from the spec: `FHE.allow` — grant address `a` decryption
rights over handle `h` (also covers `FHE.allowThis`, with the contract own address as grantee, that is
own address for `a`). -/
def fheAllow (env : FheEnv) (h : Nat) (a : Nat) : FheEnv :=
  { env with acl := fun h2 a2 => if h2 = h ∧ a2 = a then true else env.acl h2 a2 }

/-- The `ExpenseRecord` struct of the contract. -/
structure ExpenseRecord where
  timestamp : Nat
  category : String
  exists_ : Bool
deriving DecidableEq

/-- The two events the contract emits. -/
inductive LedgerEvent where
  | expenseAdded (user : Nat) (timestamp : Nat) (category : String)
  | monthlyTotalUpdated (user : Nat) (timestamp : Nat)
deriving DecidableEq

/-- Contract storage of `BuildExpenseLedger`: the three mappings
`_encryptedMonthlyTotals`, `_expenseRecords` and `_hasInitialized`,
plus the emitted event log. -/
structure ContractState where
  encryptedMonthlyTotals : Nat → Nat
  expenseRecords : Nat → List ExpenseRecord
  hasInitialized : Nat → Bool
  events : List LedgerEvent

/-- Storage right after deployment: Solidity mappings default to zero /
empty / false. -/
def initState : ContractState :=
  { encryptedMonthlyTotals := fun _ => 0
    expenseRecords := fun _ => []
    hasInitialized := fun _ => false
    events := [] }

/-- The FHE environment before any ciphertext has been created: handle `0`
is reserved as the zero sentinel. -/
def initEnv : FheEnv :=
  { plain := fun _ => 0
    acl := fun _ _ => false
    nextHandle := 1 }

/-- Operation `addExpense(encryptedAmount, inputProof, category)`, translated line by
line from the contract.  `self` is the own address of the contract (receiver of
`FHE.allowThis`), `msgSender` the caller, `blockTimestamp` the block time.
Returns `none` when the transaction reverts (proof verification failure).
The `_hasInitialized` flag is written in the first branch only in the
source; writing `true` for the sender unconditionally is equal, since in
the other branch it already holds `true`. -/
def addExpense (self msgSender blockTimestamp : Nat) (encryptedAmount : ExternalEuint32)
    (category : String) (s : ContractState) (env : FheEnv) :
    Option (ContractState × FheEnv) :=
  match fromExternal env encryptedAmount with
  | none => none
  | some (amount, env1) =>
    let r : Nat × FheEnv :=
      if s.hasInitialized msgSender then
        fheAdd env1 (s.encryptedMonthlyTotals msgSender) amount
      else
        (amount, env1)
    let s1 : ContractState :=
      { encryptedMonthlyTotals := fun a =>
          if a = msgSender then r.1 else s.encryptedMonthlyTotals a
        expenseRecords := fun a =>
          if a = msgSender then
            s.expenseRecords a ++ [⟨blockTimestamp, category, true⟩]
          else s.expenseRecords a
        hasInitialized := fun a =>
          if a = msgSender then true else s.hasInitialized a
        events := s.events ++
          [LedgerEvent.expenseAdded msgSender blockTimestamp category,
           LedgerEvent.monthlyTotalUpdated msgSender blockTimestamp] }
    some (s1, fheAllow (fheAllow r.2 r.1 self) r.1 msgSender)

/-- Operation `getEncryptedMonthlyTotal(user)`: pure read of the handle. -/
def getEncryptedMonthlyTotal (s : ContractState) (user : Nat) : Nat :=
  s.encryptedMonthlyTotals user

/-- Operation `getExpenseRecordCount(user)`: pure read. -/
def getExpenseRecordCount (s : ContractState) (user : Nat) : Nat :=
  (s.expenseRecords user).length

/-- Operation `getExpenseRecord(user, index)`: reverts (`none`) when
`index >= _expenseRecords[user].length`, otherwise returns the stored
`(timestamp, category)` pair. -/
def getExpenseRecord (s : ContractState) (user : Nat) (index : Nat) :
    Option (Nat × String) :=
  if h : index < (s.expenseRecords user).length then
    let record := (s.expenseRecords user).get ⟨index, h⟩
    some (record.timestamp, record.category)
  else none

/-- Operation `hasInitialized(user)`: pure read. -/
def hasInitialized (s : ContractState) (user : Nat) : Bool :=
  s.hasInitialized user

/-- Decryption through the external service: reading the plaintext behind
a handle (authorization checking lives outside this repository). -/
def decrypt (env : FheEnv) (h : Nat) : Nat :=
  env.plain h

/-- One submitted `addExpense` transaction. -/
structure Tx where
  sender : Nat
  timestamp : Nat
  encryptedAmount : ExternalEuint32
  category : String

/-- Chain semantics of one transaction: a reverting call leaves the state
unchanged. -/
def addExpenseTx (self : Nat) (t : Tx) (p : ContractState × FheEnv) :
    ContractState × FheEnv :=
  (addExpense self t.sender t.timestamp t.encryptedAmount t.category p.1 p.2).getD p

/-- Running a trace of transactions in order (the chain serializes them). -/
def runTrace (self : Nat) (txs : List Tx) (p : ContractState × FheEnv) :
    ContractState × FheEnv :=
  txs.foldl (fun q t => addExpenseTx self t q) p

/-- Well-formedness tying contract storage to the FHE environment: handles
stored for initialized users are allocated (below `nextHandle`) and hold
32-bit plaintexts; uninitialized users still hold the zero sentinel, which
is never allocated. -/
def Wf (s : ContractState) (env : FheEnv) : Prop :=
  1 ≤ env.nextHandle ∧
  ∀ a : Nat, (s.hasInitialized a = true →
          s.encryptedMonthlyTotals a < env.nextHandle ∧
          env.plain (s.encryptedMonthlyTotals a) < 2 ^ 32) ∧
       (s.hasInitialized a = false → s.encryptedMonthlyTotals a = 0)

end BuildExpenseLedger

namespace Client

/-!
Shallow embedding of the client orchestrator `useExpenseLedger.tsx`.

The network and SDK effects of the hook are external; what is embedded is its
control flow: which precondition checks run (and in which order), what
message each failure surfaces to the UI, and whether the failure is
rethrown to the caller or swallowed.
-/

/-- The ambient state of the hook as seen by its callbacks: `contractAddress`
and `address` strings when available, and presence of the ethers signer,
the FHEVM instance and the ethers provider. -/
structure ClientCtx where
  contractAddress : Option String
  hasEthersSigner : Bool
  hasFhevmInstance : Bool
  address : Option String
  hasEthersProvider : Bool

/-- Outcome of the precondition phase of the client `addExpense`:
either an error is thrown (with its user-facing message, also stored via
`setMessage`) before any network call, or control enters the `try` block
that performs encryption and the network submission. -/
inductive AddOutcome where
  | precondError (msg : String)
  | networkPhase
deriving DecidableEq

/-- The guard sequence at the top of `addExpense(amount, category)` in
`useExpenseLedger.tsx`, in source order; each failing guard sets the
message and throws before any encryption or network call. -/
def clientAddExpensePre (ctx : ClientCtx) (amount : Rat) : AddOutcome :=
  if ctx.contractAddress.isNone then
    .precondError "Contract address not configured. Please set VITE_CONTRACT_ADDRESS in .env.local"
  else if !ctx.hasEthersSigner then
    .precondError "Wallet signer not available. Please ensure your wallet is connected."
  else if !ctx.hasFhevmInstance then
    .precondError "FHEVM instance not initialized. Please wait for initialization."
  else if ctx.address.isNone then
    .precondError "Wallet address not available. Please connect your wallet."
  else if !ctx.hasEthersProvider then
    .precondError "Ethers provider not available."
  else if amount ≤ 0 then
    .precondError "Expense amount must be greater than 0"
  else
    .networkPhase

/-- Character-list prefix test. -/
def listStartsWith : List Char → List Char → Bool
  | [], _ => true
  | _ :: _, [] => false
  | p :: ps, c :: cs => p = c && listStartsWith ps cs

/-- Character-list infix test: does `l` contain `pat` as a contiguous
run? -/
def listHasSub (pat : List Char) : List Char → Bool
  | [] => pat.isEmpty
  | c :: rest => listStartsWith pat (c :: rest) || listHasSub pat rest

/-- Substring test (JavaScript `String.prototype.includes`). -/
def containsSub (s pat : String) : Bool :=
  listHasSub pat.toList s.toList

/-- The `catch` handler of `decryptTotal`: classifies the error message
(authorization failures get a dedicated hint) and produces the message
passed to `setMessage` before the error is rethrown. -/
def decryptCatchMessage (errorMessage : String) : String :=
  if containsSub errorMessage "not authorized" || containsSub errorMessage "authorized" then
    "Decryption failed: You don\x27t have permission to decrypt this handle. Please try adding an expense again or wait a few seconds."
  else
    "Error decrypting: " ++ errorMessage

/-- Outcome of the client `decryptTotal`: an early `return` that only sets
a message (the caller sees a normally-resolved promise), a thrown error
(with the message surfaced via `setMessage` in the `catch` before the
rethrow), or a successfully decrypted value. -/
inductive DecryptOutcome where
  | earlyReturn (msg : String)
  | failure (msg : String)
  | success (value : Nat)

/-- Whether the outcome is a thrown error, i.e. the returned promise
rejects and the caller observes the failure. -/
def DecryptOutcome.isThrown : DecryptOutcome → Bool
  | .failure _ => true
  | _ => false

/-- The guard at the top of `decryptTotal`: true when any of the five
requirements is missing. -/
def decryptPreMissing (ctx : ClientCtx) : Bool :=
  ctx.contractAddress.isNone || !ctx.hasEthersProvider || !ctx.hasFhevmInstance ||
    !ctx.hasEthersSigner || ctx.address.isNone

/-- Operation `decryptTotal()` from `useExpenseLedger.tsx`, control flow translated
in source order.  `hasInit` is the value the contract returns for
`hasInitialized`, `rawHandle` the handle read from
`getEncryptedMonthlyTotal`, and `serviceResult` the outcome of the external
`userDecrypt` call (a mapping from handles to plaintexts, or an error
message).  Keypair generation and EIP-712 signing cannot fail in this
model; their values do not influence the control flow embedded here. -/
def clientDecryptTotal (ctx : ClientCtx) (hasInit : Bool) (rawHandle : String)
    (serviceResult : Except String (String → Option Nat)) : DecryptOutcome :=
  if decryptPreMissing ctx then
    .earlyReturn "Missing requirements for decryption"
  else if !hasInit then
    .failure (decryptCatchMessage
      "You haven\x27t added any expenses yet. Please add expenses first before decrypting.")
  else
    let handle :=
      if rawHandle ≠ "" && rawHandle.startsWith "0x" then rawHandle.toLower else rawHandle
    if handle = "" || handle = "0x" || handle.length ≠ 66 then
      .failure (decryptCatchMessage
        ("Invalid handle format: " ++ handle ++ ". Expected 66 characters (0x + 64 hex chars)"))
    else
      match serviceResult with
      | .error e => .failure (decryptCatchMessage e)
      | .ok table => .success ((table handle).getD 0)

/-- What a `catch` block does with a failure: the message it surfaces to
the UI via `setMessage` (if any) and whether it rethrows the error. -/
structure CatchBehavior where
  surfacedMessage : Option String
  rethrown : Bool
deriving DecidableEq

/-- Outer `catch` of the client `addExpense`: surfaces
`Error: <reason or message>` and rethrows. -/
def addExpenseCatch (errorMessage : String) : CatchBehavior :=
  { surfacedMessage := some ("Error: " ++ errorMessage), rethrown := true }

/-- Inner `catch` around the post-confirmation refresh in `addExpense`:
degrades to a refresh-manually notice and does not fail the write. -/
def addExpenseRefreshCatch : CatchBehavior :=
  { surfacedMessage := some "Expense added, but failed to refresh data. Please refresh manually."
    rethrown := false }

/-- The `catch` of `decryptTotal`: surfaces the classified message and
rethrows. -/
def decryptTotalCatch (errorMessage : String) : CatchBehavior :=
  { surfacedMessage := some (decryptCatchMessage errorMessage), rethrown := true }

/-- The `catch` of `loadExpenseRecords`: logs to the console only — nothing is
surfaced to the UI and nothing is rethrown. -/
def loadExpenseRecordsCatch (_errorMessage : String) : CatchBehavior :=
  { surfacedMessage := none, rethrown := false }

/-- Error-message classification in the `catch` of `loadEncryptedTotal`:
RPC/unknown error codes and fetch failures are mapped to connectivity
guidance that distinguishes the local development node from a public
network. -/
def loadEncryptedTotalErrorText (chainId : Nat) (errCodeUnknown : Bool)
    (errorMessage : String) : String :=
  if errCodeUnknown then
    if chainId = 31337 then
      "Cannot connect to Hardhat node. Please ensure \x27npx hardhat node\x27 is running on http://localhost:8545"
    else
      "Network error: " ++ (if errorMessage = "" then "Failed to connect to blockchain" else errorMessage)
  else if containsSub errorMessage "Failed to fetch" then
    if chainId = 31337 then
      "Cannot connect to Hardhat node. Please ensure \x27npx hardhat node\x27 is running on http://localhost:8545"
    else
      "Network connection failed. Please check your internet connection and try again."
  else errorMessage

/-- The `catch` of `loadEncryptedTotal`: surfaces the classified message but
does not rethrow. -/
def loadEncryptedTotalCatch (chainId : Nat) (errCodeUnknown : Bool)
    (errorMessage : String) : CatchBehavior :=
  { surfacedMessage :=
      some ("Error loading total: " ++ loadEncryptedTotalErrorText chainId errCodeUnknown errorMessage)
    rethrown := false }

end Client

namespace BuildExpenseLedger

lemma addExpense_eq_none_iff (self sender ts : Nat) (e : ExternalEuint32) (cat : String)
    (s : ContractState) (env : FheEnv) :
    addExpense self sender ts e cat s env = none ↔ e.proofValid = false := by
  cases hv : e.proofValid <;> simp [addExpense, fromExternal, hv, FheEnv.alloc]

lemma addExpense_isSome (self sender ts : Nat) (e : ExternalEuint32) (cat : String)
    (s : ContractState) (env : FheEnv) (hv : e.proofValid = true) :
    (addExpense self sender ts e cat s env).isSome := by
  simp [addExpense, fromExternal, hv, FheEnv.alloc]

/-- Explicit result of a successful first `addExpense` of a user. -/
lemma addExpense_eq_some_uninit (self sender ts : Nat) (e : ExternalEuint32) (cat : String)
    (s : ContractState) (env : FheEnv)
    (hv : e.proofValid = true) (hinit : s.hasInitialized sender = false) :
    addExpense self sender ts e cat s env = some
      ({ encryptedMonthlyTotals := fun a =>
           if a = sender then env.nextHandle else s.encryptedMonthlyTotals a
         expenseRecords := fun a =>
           if a = sender then s.expenseRecords a ++ [⟨ts, cat, true⟩] else s.expenseRecords a
         hasInitialized := fun a => if a = sender then true else s.hasInitialized a
         events := s.events ++
           [LedgerEvent.expenseAdded sender ts cat,
            LedgerEvent.monthlyTotalUpdated sender ts] },
       { plain := fun h => if h = env.nextHandle then e.value % 2 ^ 32 else env.plain h
         acl := fun h2 a2 =>
           if h2 = env.nextHandle ∧ a2 = sender then true
           else if h2 = env.nextHandle ∧ a2 = self then true
           else env.acl h2 a2
         nextHandle := env.nextHandle + 1 }) := by
  simp only [addExpense, fromExternal, hv, if_true, FheEnv.alloc, fheAdd, fheAllow, hinit,
    Bool.false_eq_true, if_false]

/-- Explicit result of a successful `addExpense` of an already-initialized
user. -/
lemma addExpense_eq_some_init (self sender ts : Nat) (e : ExternalEuint32) (cat : String)
    (s : ContractState) (env : FheEnv)
    (hv : e.proofValid = true) (hinit : s.hasInitialized sender = true) :
    addExpense self sender ts e cat s env = some
      ({ encryptedMonthlyTotals := fun a =>
           if a = sender then env.nextHandle + 1 else s.encryptedMonthlyTotals a
         expenseRecords := fun a =>
           if a = sender then s.expenseRecords a ++ [⟨ts, cat, true⟩] else s.expenseRecords a
         hasInitialized := fun a => if a = sender then true else s.hasInitialized a
         events := s.events ++
           [LedgerEvent.expenseAdded sender ts cat,
            LedgerEvent.monthlyTotalUpdated sender ts] },
       { plain := fun h =>
           if h = env.nextHandle + 1 then
             ((if s.encryptedMonthlyTotals sender = env.nextHandle then e.value % 2 ^ 32
               else env.plain (s.encryptedMonthlyTotals sender)) + e.value % 2 ^ 32) % 2 ^ 32
           else if h = env.nextHandle then e.value % 2 ^ 32 else env.plain h
         acl := fun h2 a2 =>
           if h2 = env.nextHandle + 1 ∧ a2 = sender then true
           else if h2 = env.nextHandle + 1 ∧ a2 = self then true
           else env.acl h2 a2
         nextHandle := env.nextHandle + 1 + 1 }) := by
  simp only [addExpense, fromExternal, hv, if_true, FheEnv.alloc, fheAdd, fheAllow, hinit]

/-- Full characterization of a successful `addExpense` call from a
well-formed state: the proof was valid, the sender is initialized, exactly
one record is appended for the sender, the storage of all other users is
untouched, already-allocated ciphertexts keep their plaintexts, and the
new total of the sender decrypts to the wrapped sum (or to the first amount on
the first add). -/
lemma addExpense_spec (self sender ts : Nat) (e : ExternalEuint32) (cat : String)
    (s : ContractState) (env : FheEnv) (s2 : ContractState) (env2 : FheEnv)
    (hwf : Wf s env)
    (hsome : addExpense self sender ts e cat s env = some (s2, env2)) :
    e.proofValid = true ∧
    s2.hasInitialized sender = true ∧
    (∀ a, a ≠ sender → s2.hasInitialized a = s.hasInitialized a) ∧
    s2.expenseRecords sender = s.expenseRecords sender ++ [⟨ts, cat, true⟩] ∧
    (∀ a, a ≠ sender → s2.expenseRecords a = s.expenseRecords a) ∧
    (∀ a, a ≠ sender → s2.encryptedMonthlyTotals a = s.encryptedMonthlyTotals a) ∧
    env.nextHandle ≤ env2.nextHandle ∧
    (∀ h, h < env.nextHandle → env2.plain h = env.plain h) ∧
    env2.plain (s2.encryptedMonthlyTotals sender) =
      (if s.hasInitialized sender = true then
        (env.plain (s.encryptedMonthlyTotals sender) + e.value) % 2 ^ 32
      else e.value % 2 ^ 32) ∧
    Wf s2 env2 := by
  cases hv : e.proofValid
  · exfalso
    simp [addExpense, fromExternal, hv] at hsome
  · obtain ⟨hpos, hbound⟩ := hwf
    by_cases hinit : s.hasInitialized sender = true
    · obtain ⟨hlt, hplain⟩ := (hbound sender).1 hinit
      rw [addExpense_eq_some_init self sender ts e cat s env hv hinit,
        Option.some.injEq, Prod.mk.injEq] at hsome
      obtain ⟨hs, he⟩ := hsome
      subst hs he
      have hne : s.encryptedMonthlyTotals sender ≠ env.nextHandle := Nat.ne_of_lt hlt
      refine ⟨rfl, ?_, ?_, ?_, ?_, ?_, ?_, ?_, ?_, ?_⟩
      · simp
      · intro a ha
        simp [ha]
      · simp
      · intro a ha
        simp [ha]
      · intro a ha
        simp [ha]
      · simp
        omega
      · intro h hh
        have h1 : h ≠ env.nextHandle + 1 := Nat.ne_of_lt (by omega)
        have h2 : h ≠ env.nextHandle := Nat.ne_of_lt hh
        simp [h1, h2]
      · simp [hinit, hne, Nat.add_mod_mod, Nat.mod_add_mod]
      · refine ⟨by simp, fun a => ⟨?_, ?_⟩⟩
        · intro hinita
          by_cases ha : a = sender
          · subst ha
            simp
            exact Nat.mod_lt _ (by norm_num)
          · simp [ha] at hinita ⊢
            obtain ⟨h1, h2⟩ := (hbound a).1 hinita
            have h3 : s.encryptedMonthlyTotals a ≠ env.nextHandle + 1 := Nat.ne_of_lt (by omega)
            have h4 : s.encryptedMonthlyTotals a ≠ env.nextHandle := Nat.ne_of_lt h1
            simp [h3, h4]
            exact ⟨by omega, h2⟩
        · intro hninita
          by_cases ha : a = sender
          · simp [ha] at hninita
          · simp [ha] at hninita ⊢
            exact (hbound a).2 hninita
    · simp only [Bool.not_eq_true] at hinit
      rw [addExpense_eq_some_uninit self sender ts e cat s env hv hinit,
        Option.some.injEq, Prod.mk.injEq] at hsome
      obtain ⟨hs, he⟩ := hsome
      subst hs he
      refine ⟨rfl, ?_, ?_, ?_, ?_, ?_, ?_, ?_, ?_, ?_⟩
      · simp
      · intro a ha
        simp [ha]
      · simp
      · intro a ha
        simp [ha]
      · intro a ha
        simp [ha]
      · simp
      · intro h hh
        have h2 : h ≠ env.nextHandle := Nat.ne_of_lt hh
        simp [h2]
      · simp [hinit]
      · refine ⟨by simp, fun a => ⟨?_, ?_⟩⟩
        · intro hinita
          by_cases ha : a = sender
          · subst ha
            simp
            exact Nat.mod_lt _ (by norm_num)
          · simp [ha] at hinita ⊢
            obtain ⟨h1, h2⟩ := (hbound a).1 hinita
            have h4 : s.encryptedMonthlyTotals a ≠ env.nextHandle := Nat.ne_of_lt h1
            simp [h4]
            exact ⟨by omega, h2⟩
        · intro hninita
          by_cases ha : a = sender
          · simp [ha] at hninita
          · simp [ha] at hninita ⊢
            exact (hbound a).2 hninita

/-- The deployment state and fresh FHE environment are well-formed. -/
lemma initWf : Wf initState initEnv := by
  refine ⟨le_refl 1, fun a => ⟨?_, ?_⟩⟩ <;> simp [initState, initEnv]

/-- A transaction whose input proof does not verify reverts and leaves the
chain state unchanged. -/
lemma addExpenseTx_invalid (self : Nat) (t : Tx) (p : ContractState × FheEnv)
    (h : t.encryptedAmount.proofValid = false) :
    addExpenseTx self t p = p := by
  have : addExpense self t.sender t.timestamp t.encryptedAmount t.category p.1 p.2 = none :=
    (addExpense_eq_none_iff self t.sender t.timestamp t.encryptedAmount t.category p.1 p.2).mpr h
  simp [addExpenseTx, this]

/-- A valid transaction executes the successful `addExpense` path. -/
lemma addExpenseTx_valid (self : Nat) (t : Tx) (p : ContractState × FheEnv)
    (h : t.encryptedAmount.proofValid = true) :
    ∃ s2 env2, addExpense self t.sender t.timestamp t.encryptedAmount t.category p.1 p.2 =
        some (s2, env2) ∧ addExpenseTx self t p = (s2, env2) := by
  have hs := addExpense_isSome self t.sender t.timestamp t.encryptedAmount t.category p.1 p.2 h
  obtain ⟨⟨s2, env2⟩, heq⟩ := Option.isSome_iff_exists.mp hs
  exact ⟨s2, env2, heq, by simp [addExpenseTx, heq]⟩

/-- Running the concatenation of two traces runs them in sequence. -/
lemma runTrace_append (self : Nat) (txs more : List Tx) (p : ContractState × FheEnv) :
    runTrace self (txs ++ more) p = runTrace self more (runTrace self txs p) := by
  simp [runTrace, List.foldl_append]

/-- Every transaction step preserves well-formedness. -/
lemma addExpenseTx_wf (self : Nat) (t : Tx) (p : ContractState × FheEnv)
    (hwf : Wf p.1 p.2) : Wf (addExpenseTx self t p).1 (addExpenseTx self t p).2 := by
  cases hv : t.encryptedAmount.proofValid
  · rw [addExpenseTx_invalid self t p hv]
    exact hwf
  · obtain ⟨s2, env2, heq, htx⟩ := addExpenseTx_valid self t p hv
    rw [htx]
    exact (addExpense_spec self t.sender t.timestamp t.encryptedAmount t.category
      p.1 p.2 s2 env2 hwf heq).2.2.2.2.2.2.2.2.2

/-- Main accumulation lemma: running a trace of valid transactions all
sent by user `u` from any well-formed state appends exactly the
corresponding records in order, and makes the encrypted total of `u` decrypt to
the wrapped sum of the submitted amounts (added to the previous total when
`u` was already initialized). -/
lemma runTrace_user (self u : Nat) (txs : List Tx)
    (hall : ∀ t ∈ txs, t.sender = u ∧ t.encryptedAmount.proofValid = true) :
    ∀ s env, Wf s env →
      Wf (runTrace self txs (s, env)).1 (runTrace self txs (s, env)).2 ∧
      (runTrace self txs (s, env)).1.expenseRecords u =
        s.expenseRecords u ++ txs.map (fun t => ⟨t.timestamp, t.category, true⟩) ∧
      (s.hasInitialized u = true →
        (runTrace self txs (s, env)).1.hasInitialized u = true ∧
        (runTrace self txs (s, env)).2.plain
            ((runTrace self txs (s, env)).1.encryptedMonthlyTotals u) =
          (env.plain (s.encryptedMonthlyTotals u) +
            (txs.map (fun t => t.encryptedAmount.value)).sum) % 2 ^ 32) ∧
      (s.hasInitialized u = false → txs ≠ [] →
        (runTrace self txs (s, env)).1.hasInitialized u = true ∧
        (runTrace self txs (s, env)).2.plain
            ((runTrace self txs (s, env)).1.encryptedMonthlyTotals u) =
          ((txs.map (fun t => t.encryptedAmount.value)).sum) % 2 ^ 32) := by
  induction txs with
  | nil =>
    intro s env hwf
    refine ⟨hwf, by simp [runTrace], ?_, by simp⟩
    intro hinit
    obtain ⟨hlt, hplain⟩ := (hwf.2 u).1 hinit
    simp only [runTrace, List.foldl_nil, List.map_nil, List.sum_nil, Nat.add_zero]
    exact ⟨hinit, (Nat.mod_eq_of_lt hplain).symm⟩
  | cons t rest ih =>
    intro s env hwf
    obtain ⟨hsender, hvalid⟩ := hall t (List.mem_cons_self t rest)
    have hrest : ∀ t2 ∈ rest, t2.sender = u ∧ t2.encryptedAmount.proofValid = true :=
      fun t2 ht2 => hall t2 (List.mem_cons_of_mem t ht2)
    obtain ⟨s1, env1, heq, htx⟩ := addExpenseTx_valid self t (s, env) hvalid
    have hstep := addExpense_spec self t.sender t.timestamp t.encryptedAmount t.category
      s env s1 env1 hwf heq
    obtain ⟨-, hinit1, -, hrec1, -, -, -, -, hplain1, hwf1⟩ := hstep
    have hrun : runTrace self (t :: rest) (s, env) = runTrace self rest (s1, env1) := by
      simp [runTrace, htx]
    obtain ⟨ihwf, ihrec, ihinit, -⟩ := ih hrest s1 env1 hwf1
    rw [hsender] at hinit1 hrec1 hplain1
    obtain ⟨ihinit1, ihplain1⟩ := ihinit hinit1
    rw [hrun]
    refine ⟨ihwf, ?_, ?_, ?_⟩
    · rw [ihrec, hrec1, List.map_cons, List.append_assoc, List.singleton_append]
    · intro hinitu
      refine ⟨ihinit1, ?_⟩
      rw [ihplain1, hplain1, if_pos hinitu, List.map_cons, List.sum_cons,
        Nat.mod_add_mod, Nat.add_assoc]
    · intro hninitu _
      refine ⟨ihinit1, ?_⟩
      rw [ihplain1, hplain1, if_neg (by simp [hninitu]), List.map_cons, List.sum_cons,
        Nat.mod_add_mod]

/-- A user for whom every transaction in a trace either came from another
sender or had an invalid proof stays uninitialized (and, by
well-formedness, keeps the zero-sentinel total). -/
lemma runTrace_untouched (self u : Nat) (txs : List Tx)
    (hnone : ∀ t ∈ txs, t.sender = u → t.encryptedAmount.proofValid = false) :
    ∀ s env, Wf s env → s.hasInitialized u = false →
      (runTrace self txs (s, env)).1.hasInitialized u = false ∧
      Wf (runTrace self txs (s, env)).1 (runTrace self txs (s, env)).2 := by
  induction txs with
  | nil =>
    intro s env hwf hninit
    exact ⟨hninit, hwf⟩
  | cons t rest ih =>
    intro s env hwf hninit
    have hrest : ∀ t2 ∈ rest, t2.sender = u → t2.encryptedAmount.proofValid = false :=
      fun t2 ht2 => hnone t2 (List.mem_cons_of_mem t ht2)
    have hrun : runTrace self (t :: rest) (s, env) =
        runTrace self rest (addExpenseTx self t (s, env)) := by
      simp [runTrace]
    rw [hrun]
    cases hv : t.encryptedAmount.proofValid
    · rw [addExpenseTx_invalid self t (s, env) hv]
      exact ih hrest s env hwf hninit
    · have hne : t.sender ≠ u := by
        intro hcontra
        rw [hnone t (List.mem_cons_self t rest) hcontra] at hv
        exact Bool.false_ne_true hv
      obtain ⟨s1, env1, heq, htx⟩ := addExpenseTx_valid self t (s, env) hv
      have hstep := addExpense_spec self t.sender t.timestamp t.encryptedAmount t.category
        s env s1 env1 hwf heq
      obtain ⟨-, -, hframe, -, -, -, -, -, -, hwf1⟩ := hstep
      rw [htx]
      refine ih hrest s1 env1 hwf1 ?_
      rw [hframe u (Ne.symm hne)]
      exact hninit

/-- The initialized flag is monotone along any trace, and the invariant
"initialized iff at least one record" is preserved from any state
satisfying it. -/
lemma runTrace_initCount (self : Nat) (txs : List Tx) :
    ∀ s env, Wf s env →
      (∀ u, s.hasInitialized u = true ↔ 0 < (s.expenseRecords u).length) →
      (∀ u, (runTrace self txs (s, env)).1.hasInitialized u = true ↔
        0 < ((runTrace self txs (s, env)).1.expenseRecords u).length) ∧
      (∀ u, s.hasInitialized u = true →
        (runTrace self txs (s, env)).1.hasInitialized u = true) := by
  induction txs with
  | nil =>
    intro s env hwf hiff
    exact ⟨hiff, fun u h => h⟩
  | cons t rest ih =>
    intro s env hwf hiff
    have hrun : runTrace self (t :: rest) (s, env) =
        runTrace self rest (addExpenseTx self t (s, env)) := by
      simp [runTrace]
    rw [hrun]
    cases hv : t.encryptedAmount.proofValid
    · rw [addExpenseTx_invalid self t (s, env) hv]
      exact ih s env hwf hiff
    · obtain ⟨s1, env1, heq, htx⟩ := addExpenseTx_valid self t (s, env) hv
      have hstep := addExpense_spec self t.sender t.timestamp t.encryptedAmount t.category
        s env s1 env1 hwf heq
      obtain ⟨-, hinit1, hframeInit, hrec1, hframeRec, -, -, -, -, hwf1⟩ := hstep
      rw [htx]
      have hiff1 : ∀ u, s1.hasInitialized u = true ↔ 0 < (s1.expenseRecords u).length := by
        intro u
        by_cases hu : u = t.sender
        · subst hu
          rw [hrec1]
          simp [hinit1]
        · rw [hframeInit u hu, hframeRec u hu]
          exact hiff u
      have hmono1 : ∀ u, s.hasInitialized u = true → s1.hasInitialized u = true := by
        intro u hu
        by_cases h : u = t.sender
        · subst h
          exact hinit1
        · rw [hframeInit u h]
          exact hu
      obtain ⟨hiffR, hmonoR⟩ := ih s1 env1 hwf1 hiff1
      exact ⟨hiffR, fun u hu => hmonoR u (hmono1 u hu)⟩

/-- A successful `addExpense` appends exactly one record for the sender and
leaves the record list of every other user unchanged (no well-formedness
assumption needed). -/
lemma addExpense_records (self sender ts : Nat) (e : ExternalEuint32) (cat : String)
    (s : ContractState) (env : FheEnv) (s2 : ContractState) (env2 : FheEnv)
    (hsome : addExpense self sender ts e cat s env = some (s2, env2)) :
    s2.expenseRecords sender = s.expenseRecords sender ++ [⟨ts, cat, true⟩] ∧
    (∀ a, a ≠ sender → s2.expenseRecords a = s.expenseRecords a) := by
  cases hv : e.proofValid
  · exfalso
    simp [addExpense, fromExternal, hv] at hsome
  · by_cases hinit : s.hasInitialized sender = true
    · rw [addExpense_eq_some_init self sender ts e cat s env hv hinit,
        Option.some.injEq, Prod.mk.injEq] at hsome
      obtain ⟨hs, he⟩ := hsome
      subst hs he
      exact ⟨by simp, fun a ha => by simp [ha]⟩
    · simp only [Bool.not_eq_true] at hinit
      rw [addExpense_eq_some_uninit self sender ts e cat s env hv hinit,
        Option.some.injEq, Prod.mk.injEq] at hsome
      obtain ⟨hs, he⟩ := hsome
      subst hs he
      exact ⟨by simp, fun a ha => by simp [ha]⟩

/-- Well-formedness is preserved along any trace. -/
lemma runTrace_wf (self : Nat) (txs : List Tx) :
    ∀ p : ContractState × FheEnv, Wf p.1 p.2 →
      Wf (runTrace self txs p).1 (runTrace self txs p).2 := by
  induction txs with
  | nil =>
    intro p hwf
    exact hwf
  | cons t rest ih =>
    intro p hwf
    have hrun : runTrace self (t :: rest) p = runTrace self rest (addExpenseTx self t p) := by
      simp [runTrace]
    rw [hrun]
    exact ih (addExpenseTx self t p) (addExpenseTx_wf self t p hwf)

end BuildExpenseLedger

open BuildExpenseLedger Client

/-- C1: For every user and every sequence of N successful `addExpense`
operations by that user with plaintext amounts a₁..aₙ, decrypting the
resulting encrypted total yields exactly Σaᵢ.  COUNTEREXAMPLE: the total is
a `euint32`, so homomorphic addition wraps modulo 2^32: after two
successful adds of 2^31 each, the total decrypts to 0, not 2^31 + 2^31. -/
theorem C1_claim_counterexample :
    hasInitialized (runTrace 7
        [⟨1, 100, ⟨2147483648, true⟩, "materials"⟩, ⟨1, 200, ⟨2147483648, true⟩, "labor"⟩]
        (initState, initEnv)).1 1 = true ∧
    decrypt (runTrace 7
        [⟨1, 100, ⟨2147483648, true⟩, "materials"⟩, ⟨1, 200, ⟨2147483648, true⟩, "labor"⟩]
        (initState, initEnv)).2
      (getEncryptedMonthlyTotal (runTrace 7
        [⟨1, 100, ⟨2147483648, true⟩, "materials"⟩, ⟨1, 200, ⟨2147483648, true⟩, "labor"⟩]
        (initState, initEnv)).1 1) = 0 ∧
    (0 : Nat) ≠ 2147483648 + 2147483648 := by
  refine ⟨rfl, rfl, by norm_num⟩

/-- C1 (amended): after any nonempty sequence of successful `addExpense`
operations by one user from deployment, the encrypted total decrypts to
Σaᵢ mod 2^32 — the contract sets the total to the first decoded amount and
homomorphically adds each subsequent amount, never decrypting on-chain —
and hence to exactly Σaᵢ whenever Σaᵢ < 2^32. -/
theorem C1_total_decrypts_to_wrapped_sum (self u : Nat) (txs : List Tx)
    (hall : ∀ t ∈ txs, t.sender = u ∧ t.encryptedAmount.proofValid = true)
    (hne : txs ≠ []) :
    decrypt (runTrace self txs (initState, initEnv)).2
        (getEncryptedMonthlyTotal (runTrace self txs (initState, initEnv)).1 u) =
      ((txs.map (fun t => t.encryptedAmount.value)).sum) % 2 ^ 32 ∧
    ((txs.map (fun t => t.encryptedAmount.value)).sum < 2 ^ 32 →
      decrypt (runTrace self txs (initState, initEnv)).2
          (getEncryptedMonthlyTotal (runTrace self txs (initState, initEnv)).1 u) =
        (txs.map (fun t => t.encryptedAmount.value)).sum) := by
  have h := ((runTrace_user self u txs hall initState initEnv initWf).2.2.2 rfl hne).2
  exact ⟨h, fun hlt => h.trans (Nat.mod_eq_of_lt hlt)⟩

/-- C1 witness: Alice (user 1) adds 1000 then 500; her total decrypts to
1500. -/
theorem C1_total_decrypts_to_wrapped_sum_witness :
    decrypt (runTrace 7 [⟨1, 100, ⟨1000, true⟩, "materials"⟩, ⟨1, 200, ⟨500, true⟩, "labor"⟩]
        (initState, initEnv)).2
      (getEncryptedMonthlyTotal (runTrace 7
        [⟨1, 100, ⟨1000, true⟩, "materials"⟩, ⟨1, 200, ⟨500, true⟩, "labor"⟩]
        (initState, initEnv)).1 1) = 1500 :=
  ((C1_total_decrypts_to_wrapped_sum 7 1
      [⟨1, 100, ⟨1000, true⟩, "materials"⟩, ⟨1, 200, ⟨500, true⟩, "labor"⟩]
      (by decide) (List.cons_ne_nil _ _)).2 (by norm_num)).trans (by norm_num)

/-- C2: after N successful adds by a user from deployment,
`getExpenseRecordCount` returns N and `getExpenseRecord(user, i)` returns
the i-th submitted timestamp and category in submission order; moreover
each successful add appends exactly one record for the sender, and any
transaction (successful or reverting, any sender) only ever extends a
record list of a user (records are never deleted or reordered). -/
theorem C2_records_in_submission_order (self u : Nat) (txs : List Tx)
    (hall : ∀ t ∈ txs, t.sender = u ∧ t.encryptedAmount.proofValid = true) :
    getExpenseRecordCount (runTrace self txs (initState, initEnv)).1 u = txs.length ∧
    (∀ i (h : i < txs.length),
      getExpenseRecord (runTrace self txs (initState, initEnv)).1 u i =
        some ((txs.get ⟨i, h⟩).timestamp, (txs.get ⟨i, h⟩).category)) ∧
    (∀ sender ts e cat s env s2 env2,
      addExpense self sender ts e cat s env = some (s2, env2) →
        s2.expenseRecords sender = s.expenseRecords sender ++ [⟨ts, cat, true⟩]) ∧
    (∀ t p a, ((addExpenseTx self t p).1.expenseRecords a).take
      ((p.1.expenseRecords a).length) = p.1.expenseRecords a) := by
  have hrec := (runTrace_user self u txs hall initState initEnv initWf).2.1
  have hrec' : (runTrace self txs (initState, initEnv)).1.expenseRecords u =
      txs.map (fun t => ⟨t.timestamp, t.category, true⟩) := by
    rw [hrec]
    simp [initState]
  refine ⟨?_, ?_, ?_, ?_⟩
  · rw [getExpenseRecordCount, hrec']
    simp
  · intro i h
    have hlen : i < ((runTrace self txs (initState, initEnv)).1.expenseRecords u).length := by
      rw [hrec']
      simpa using h
    rw [getExpenseRecord, dif_pos hlen]
    have : ((runTrace self txs (initState, initEnv)).1.expenseRecords u).get ⟨i, hlen⟩ =
        (⟨(txs.get ⟨i, h⟩).timestamp, (txs.get ⟨i, h⟩).category, true⟩ : ExpenseRecord) := by
      have := hrec'
      rw [List.get_eq_getElem, List.get_eq_getElem]
      simp only [this]
      simp [List.getElem_map]
    rw [this]
  · intro sender ts e cat s env s2 env2 hsome
    exact (addExpense_records self sender ts e cat s env s2 env2 hsome).1
  · intro t p a
    cases hv : t.encryptedAmount.proofValid
    · rw [addExpenseTx_invalid self t p hv, List.take_length]
    · obtain ⟨s2, env2, heq, htx⟩ := addExpenseTx_valid self t p hv
      rw [htx]
      obtain ⟨hsend, hother⟩ := addExpense_records self t.sender t.timestamp
        t.encryptedAmount t.category p.1 p.2 s2 env2 heq
      by_cases ha : a = t.sender
      · subst ha
        rw [hsend, List.take_left]
      · rw [hother a ha, List.take_length]

/-- C2 witness: two adds by user 1; count is 2 and record 1 is the second
submission. -/
theorem C2_records_in_submission_order_witness :
    getExpenseRecordCount (runTrace 7
        [⟨1, 100, ⟨1000, true⟩, "materials"⟩, ⟨1, 200, ⟨500, true⟩, "labor"⟩]
        (initState, initEnv)).1 1 = 2 ∧
    getExpenseRecord (runTrace 7
        [⟨1, 100, ⟨1000, true⟩, "materials"⟩, ⟨1, 200, ⟨500, true⟩, "labor"⟩]
        (initState, initEnv)).1 1 1 = some (200, "labor") := by
  have h := C2_records_in_submission_order 7 1
    [⟨1, 100, ⟨1000, true⟩, "materials"⟩, ⟨1, 200, ⟨500, true⟩, "labor"⟩] (by decide)
  exact ⟨h.1, (h.2.1 1 (by norm_num)).trans rfl⟩

/-- C3: a user for whom no `addExpense` ever succeeded (every transaction
in the trace either came from another sender or had an invalid proof) has
`hasInitialized = false` and `getEncryptedMonthlyTotal` equal to the
all-zero sentinel handle. -/
theorem C3_uninitialized_defaults (self u : Nat) (txs : List Tx)
    (hnone : ∀ t ∈ txs, t.sender = u → t.encryptedAmount.proofValid = false) :
    hasInitialized (runTrace self txs (initState, initEnv)).1 u = false ∧
    getEncryptedMonthlyTotal (runTrace self txs (initState, initEnv)).1 u = 0 := by
  obtain ⟨hninit, hwf⟩ := runTrace_untouched self u txs hnone initState initEnv initWf rfl
  exact ⟨hninit, (hwf.2 u).2 hninit⟩

/-- C3 witness: user 2 adds successfully, user 1 only submits an invalid
proof; user 1 stays uninitialized with a zero-sentinel total. -/
theorem C3_uninitialized_defaults_witness :
    hasInitialized (runTrace 7
        [⟨2, 100, ⟨1000, true⟩, "materials"⟩, ⟨1, 200, ⟨500, false⟩, "labor"⟩]
        (initState, initEnv)).1 1 = false ∧
    getEncryptedMonthlyTotal (runTrace 7
        [⟨2, 100, ⟨1000, true⟩, "materials"⟩, ⟨1, 200, ⟨500, false⟩, "labor"⟩]
        (initState, initEnv)).1 1 = 0 :=
  C3_uninitialized_defaults 7 1
    [⟨2, 100, ⟨1000, true⟩, "materials"⟩, ⟨1, 200, ⟨500, false⟩, "labor"⟩] (by decide)

/-- C4: `getExpenseRecord(user, index)` fails with the out-of-bounds
condition exactly when `index >= getExpenseRecordCount(user)`; for every
`index < count` it returns the stored (timestamp, category) pair without
failing. -/
theorem C4_getExpenseRecord_bounds (s : BuildExpenseLedger.ContractState) (u i : Nat) :
    (getExpenseRecord s u i = none ↔ getExpenseRecordCount s u ≤ i) ∧
    (∀ h : i < getExpenseRecordCount s u,
      getExpenseRecord s u i =
        some (((s.expenseRecords u).get ⟨i, h⟩).timestamp,
          ((s.expenseRecords u).get ⟨i, h⟩).category)) := by
  constructor
  · by_cases h : i < (s.expenseRecords u).length
    · simp [getExpenseRecord, getExpenseRecordCount, h]
    · simp [getExpenseRecord, getExpenseRecordCount, h]
      omega
  · intro h
    have h2 : i < (s.expenseRecords u).length := h
    rw [getExpenseRecord, dif_pos h2]

/-- C4 witness: after one add, index 0 reads back and index 1 fails. -/
theorem C4_getExpenseRecord_bounds_witness :
    getExpenseRecord (runTrace 7 [⟨1, 10, ⟨100, true⟩, "materials"⟩]
        (initState, initEnv)).1 1 0 = some (10, "materials") ∧
    getExpenseRecord (runTrace 7 [⟨1, 10, ⟨100, true⟩, "materials"⟩]
        (initState, initEnv)).1 1 1 = none := by
  constructor
  · exact ((C4_getExpenseRecord_bounds
      (runTrace 7 [⟨1, 10, ⟨100, true⟩, "materials"⟩] (initState, initEnv)).1 1 0).2
      (by decide)).trans rfl
  · exact (C4_getExpenseRecord_bounds
      (runTrace 7 [⟨1, 10, ⟨100, true⟩, "materials"⟩] (initState, initEnv)).1 1 1).1.mpr
      (by decide)

/-- C5: a successful `addExpense` transaction from one user leaves every
initialized flag of every other user, their record list (hence record count and
contents), stored total handle, and the decrypted value of that total
unchanged. -/
theorem C5_user_isolation (self b : Nat) (t : BuildExpenseLedger.Tx)
    (p : BuildExpenseLedger.ContractState × BuildExpenseLedger.FheEnv)
    (hwf : Wf p.1 p.2) (hb : b ≠ t.sender)
    (hv : t.encryptedAmount.proofValid = true) :
    hasInitialized (addExpenseTx self t p).1 b = hasInitialized p.1 b ∧
    (addExpenseTx self t p).1.expenseRecords b = p.1.expenseRecords b ∧
    getExpenseRecordCount (addExpenseTx self t p).1 b = getExpenseRecordCount p.1 b ∧
    getEncryptedMonthlyTotal (addExpenseTx self t p).1 b =
      getEncryptedMonthlyTotal p.1 b ∧
    decrypt (addExpenseTx self t p).2 (getEncryptedMonthlyTotal (addExpenseTx self t p).1 b) =
      decrypt p.2 (getEncryptedMonthlyTotal p.1 b) := by
  obtain ⟨s2, env2, heq, htx⟩ := addExpenseTx_valid self t p hv
  have hspec := addExpense_spec self t.sender t.timestamp t.encryptedAmount t.category
    p.1 p.2 s2 env2 hwf heq
  obtain ⟨-, -, hinitF, -, hrecF, htotF, -, hplainF, -, -⟩ := hspec
  rw [htx]
  have h1 := hinitF b hb
  have h2 := hrecF b hb
  have h3 := htotF b hb
  refine ⟨h1, h2, by rw [getExpenseRecordCount, getExpenseRecordCount, h2], ?_, ?_⟩
  · rw [getEncryptedMonthlyTotal, getEncryptedMonthlyTotal, h3]
  · rw [getEncryptedMonthlyTotal, getEncryptedMonthlyTotal, h3, decrypt, decrypt]
    by_cases hbinit : p.1.hasInitialized b = true
    · exact hplainF _ ((hwf.2 b).1 hbinit).1
    · have hb0 : p.1.encryptedMonthlyTotals b = 0 :=
        (hwf.2 b).2 (by simpa using hbinit)
      rw [hb0]
      exact hplainF 0 hwf.1

/-- C5 witness: user 1 adds; for user 2 the flag, records, total handle and
decrypted total are untouched. -/
theorem C5_user_isolation_witness :
    hasInitialized (addExpenseTx 7 ⟨1, 10, ⟨100, true⟩, "materials"⟩
        (initState, initEnv)).1 2 = hasInitialized initState 2 ∧
    (addExpenseTx 7 ⟨1, 10, ⟨100, true⟩, "materials"⟩
        (initState, initEnv)).1.expenseRecords 2 = initState.expenseRecords 2 ∧
    getExpenseRecordCount (addExpenseTx 7 ⟨1, 10, ⟨100, true⟩, "materials"⟩
        (initState, initEnv)).1 2 = getExpenseRecordCount initState 2 ∧
    getEncryptedMonthlyTotal (addExpenseTx 7 ⟨1, 10, ⟨100, true⟩, "materials"⟩
        (initState, initEnv)).1 2 = getEncryptedMonthlyTotal initState 2 ∧
    decrypt (addExpenseTx 7 ⟨1, 10, ⟨100, true⟩, "materials"⟩ (initState, initEnv)).2
        (getEncryptedMonthlyTotal (addExpenseTx 7 ⟨1, 10, ⟨100, true⟩, "materials"⟩
          (initState, initEnv)).1 2) =
      decrypt initEnv (getEncryptedMonthlyTotal initState 2) :=
  C5_user_isolation 7 2 ⟨1, 10, ⟨100, true⟩, "materials"⟩ (initState, initEnv)
    initWf (by decide) rfl

/-- C6: `addExpense` reverts exactly when the validity proof does not
verify against the (ciphertext, caller, contract address) triple — the
`category` argument is universally quantified here, so no validation is
performed on it — and a reverting transaction leaves the state entirely
unchanged. -/
theorem C6_addExpense_failure_characterization (self sender ts : Nat)
    (e : BuildExpenseLedger.ExternalEuint32) (cat : String)
    (s : BuildExpenseLedger.ContractState) (env : BuildExpenseLedger.FheEnv) :
    (addExpense self sender ts e cat s env = none ↔ e.proofValid = false) ∧
    ((addExpense self sender ts e cat s env).isSome ↔ e.proofValid = true) ∧
    (e.proofValid = false →
      addExpenseTx self ⟨sender, ts, e, cat⟩ (s, env) = (s, env)) := by
  refine ⟨addExpense_eq_none_iff self sender ts e cat s env, ?_, ?_⟩
  · constructor
    · intro h
      cases hv : e.proofValid
      · rw [(addExpense_eq_none_iff self sender ts e cat s env).mpr hv] at h
        simp at h
      · rfl
    · exact addExpense_isSome self sender ts e cat s env
  · intro h
    exact addExpenseTx_invalid self ⟨sender, ts, e, cat⟩ (s, env) h

/-- C6 witness: an invalid proof reverts (even with a garbage category)
and changes nothing; a valid proof with a garbage category succeeds. -/
theorem C6_addExpense_failure_characterization_witness :
    addExpense 7 1 10 ⟨100, false⟩ "!!garbage??" initState initEnv = none ∧
    addExpenseTx 7 ⟨1, 10, ⟨100, false⟩, "!!garbage??"⟩ (initState, initEnv) =
      (initState, initEnv) ∧
    (addExpense 7 1 10 ⟨100, true⟩ "!!garbage??" initState initEnv).isSome = true := by
  refine ⟨?_, ?_, ?_⟩
  · exact (C6_addExpense_failure_characterization 7 1 10 ⟨100, false⟩ "!!garbage??"
      initState initEnv).1.mpr rfl
  · exact (C6_addExpense_failure_characterization 7 1 10 ⟨100, false⟩ "!!garbage??"
      initState initEnv).2.2 rfl
  · exact (C6_addExpense_failure_characterization 7 1 10 ⟨100, true⟩ "!!garbage??"
      initState initEnv).2.1.mpr rfl

/-- C7: the client `addExpense(amount, category)` reaches the network
phase exactly when the contract address is configured, the wallet signer,
FHEVM instance and provider are available, the account address is known,
and the amount is positive; whenever any of these preconditions fails, it
throws a descriptive (non-empty, condition-specific) user-facing error
before any network call — the `precondError` outcome is produced by the
guard chain that precedes the encryption and submission phase. -/
theorem C7_client_addExpense_preconditions (ctx : Client.ClientCtx) (amount : Rat) :
    (Client.clientAddExpensePre ctx amount = Client.AddOutcome.networkPhase ↔
      (ctx.contractAddress.isNone = false ∧ ctx.hasEthersSigner = true ∧
       ctx.hasFhevmInstance = true ∧ ctx.address.isNone = false ∧
       ctx.hasEthersProvider = true ∧ 0 < amount)) ∧
    ((ctx.contractAddress.isNone = true ∨ ctx.hasEthersSigner = false ∨
      ctx.hasFhevmInstance = false ∨ ctx.address.isNone = true ∨
      ctx.hasEthersProvider = false ∨ amount ≤ 0) →
      ∃ msg, Client.clientAddExpensePre ctx amount = Client.AddOutcome.precondError msg ∧
        msg ≠ "") := by
  constructor
  · unfold Client.clientAddExpensePre
    split_ifs with h1 h2 h3 h4 h5 h6 <;>
      simp_all [not_le, Option.isSome_iff_ne_none]
  · intro hmiss
    unfold Client.clientAddExpensePre
    split_ifs with h1 h2 h3 h4 h5 h6
    · exact ⟨_, rfl, by decide⟩
    · exact ⟨_, rfl, by decide⟩
    · exact ⟨_, rfl, by decide⟩
    · exact ⟨_, rfl, by decide⟩
    · exact ⟨_, rfl, by decide⟩
    · exact ⟨_, rfl, by decide⟩
    · exfalso
      simp_all [not_le]

/-- C7 witness: with every requirement present and a positive amount the
flow proceeds to the network phase; with a missing FHEVM instance it
throws a non-empty error. -/
theorem C7_client_addExpense_preconditions_witness :
    Client.clientAddExpensePre
      { contractAddress := some "0xabc", hasEthersSigner := true, hasFhevmInstance := true,
        address := some "0xdef", hasEthersProvider := true } 100 =
      Client.AddOutcome.networkPhase ∧
    ∃ msg, Client.clientAddExpensePre
        { contractAddress := some "0xabc", hasEthersSigner := true, hasFhevmInstance := false,
          address := some "0xdef", hasEthersProvider := true } 100 =
        Client.AddOutcome.precondError msg ∧ msg ≠ "" :=
  ⟨(C7_client_addExpense_preconditions
      { contractAddress := some "0xabc", hasEthersSigner := true, hasFhevmInstance := true,
        address := some "0xdef", hasEthersProvider := true } 100).1.mpr
      ⟨rfl, rfl, rfl, rfl, rfl, by norm_num⟩,
   (C7_client_addExpense_preconditions
      { contractAddress := some "0xabc", hasEthersSigner := true, hasFhevmInstance := false,
        address := some "0xdef", hasEthersProvider := true } 100).2
      (Or.inr (Or.inr (Or.inl rfl)))⟩

/-- C8: the claim says `decryptTotal` FAILS (the caller observes a thrown,
descriptive error) whenever a precondition is missing.  COUNTEREXAMPLE:
with the signer missing, the implementation takes the early-`return`
branch: the promise resolves normally (nothing is thrown) and only the
generic message "Missing requirements for decryption" is set — not a
thrown, per-condition descriptive error. -/
theorem C8_claim_counterexample :
    Client.clientDecryptTotal
        { contractAddress := some "0xabc", hasEthersSigner := false, hasFhevmInstance := true,
          address := some "0xdef", hasEthersProvider := true } true
        "0x0000000000000000000000000000000000000000000000000000000000000001"
        (Except.ok fun _ => some 5) =
      Client.DecryptOutcome.earlyReturn "Missing requirements for decryption" ∧
    (Client.clientDecryptTotal
        { contractAddress := some "0xabc", hasEthersSigner := false, hasFhevmInstance := true,
          address := some "0xdef", hasEthersProvider := true } true
        "0x0000000000000000000000000000000000000000000000000000000000000001"
        (Except.ok fun _ => some 5)).isThrown = false :=
  ⟨rfl, rfl⟩

/-- C8 (amended): when any of the five preconditions (contract address,
provider, FHEVM instance, signer, account address) is missing,
`decryptTotal` returns early without throwing, surfacing only the generic
message "Missing requirements for decryption"; when the preconditions hold
but the user is not yet initialized, it throws — and surfaces — the
descriptive add-expenses-first error. -/
theorem C8_decrypt_precondition_behavior (ctx : Client.ClientCtx) (hasInit : Bool)
    (rawHandle : String) (svc : Except String (String → Option Nat)) :
    (Client.decryptPreMissing ctx = true →
      Client.clientDecryptTotal ctx hasInit rawHandle svc =
        Client.DecryptOutcome.earlyReturn "Missing requirements for decryption") ∧
    (Client.decryptPreMissing ctx = false → hasInit = false →
      Client.clientDecryptTotal ctx hasInit rawHandle svc =
        Client.DecryptOutcome.failure
          "Error decrypting: You haven\x27t added any expenses yet. Please add expenses first before decrypting.") := by
  constructor
  · intro h
    simp [Client.clientDecryptTotal, h]
  · intro h hinit
    simp only [Client.clientDecryptTotal, h, Bool.false_eq_true, if_false, hinit,
      Bool.not_false, if_true]
    rfl

/-- C8 witness: concrete instantiations of both behaviors. -/
theorem C8_decrypt_precondition_behavior_witness :
    Client.clientDecryptTotal
        { contractAddress := none, hasEthersSigner := true, hasFhevmInstance := true,
          address := some "0xdef", hasEthersProvider := true } true "0x" (Except.error "e") =
      Client.DecryptOutcome.earlyReturn "Missing requirements for decryption" ∧
    Client.clientDecryptTotal
        { contractAddress := some "0xabc", hasEthersSigner := true, hasFhevmInstance := true,
          address := some "0xdef", hasEthersProvider := true } false "0x" (Except.error "e") =
      Client.DecryptOutcome.failure
        "Error decrypting: You haven\x27t added any expenses yet. Please add expenses first before decrypting." :=
  ⟨(C8_decrypt_precondition_behavior
      { contractAddress := none, hasEthersSigner := true, hasFhevmInstance := true,
        address := some "0xdef", hasEthersProvider := true } true "0x" (Except.error "e")).1 rfl,
   (C8_decrypt_precondition_behavior
      { contractAddress := some "0xabc", hasEthersSigner := true, hasFhevmInstance := true,
        address := some "0xdef", hasEthersProvider := true } false "0x" (Except.error "e")).2
      rfl rfl⟩

/-- C9: the claim says EVERY failure in the four client operations is
caught, surfaced as a human-readable message to the UI, AND rethrown to
the caller (with only the post-write refresh degradation excepted).
COUNTEREXAMPLE: the `catch` of `loadExpenseRecords` only logs to the
console — it surfaces no message and rethrows nothing, silently
swallowing the failure. -/
theorem C9_claim_counterexample :
    (Client.loadExpenseRecordsCatch "RPC node unreachable").surfacedMessage = none ∧
    (Client.loadExpenseRecordsCatch "RPC node unreachable").rethrown = false :=
  ⟨rfl, rfl⟩

/-- C9 (amended): `addExpense` and `decryptTotal` failures are caught,
surfaced as human-readable messages and rethrown; the post-write refresh
failure inside `addExpense` degrades to the refresh-manually notice
without failing the write; `loadEncryptedTotal` failures are surfaced
(with connectivity classification) but not rethrown; and
`loadExpenseRecords` failures are neither surfaced nor rethrown (they are
only logged to the console). -/
theorem C9_error_propagation (msg : String) (chainId : Nat) (codeUnknown : Bool) :
    ((Client.addExpenseCatch msg).surfacedMessage = some ("Error: " ++ msg) ∧
     (Client.addExpenseCatch msg).rethrown = true) ∧
    ((Client.decryptTotalCatch msg).surfacedMessage =
       some (Client.decryptCatchMessage msg) ∧
     (Client.decryptTotalCatch msg).rethrown = true) ∧
    (Client.addExpenseRefreshCatch.surfacedMessage =
       some "Expense added, but failed to refresh data. Please refresh manually." ∧
     Client.addExpenseRefreshCatch.rethrown = false) ∧
    ((Client.loadEncryptedTotalCatch chainId codeUnknown msg).surfacedMessage =
       some ("Error loading total: " ++
         Client.loadEncryptedTotalErrorText chainId codeUnknown msg) ∧
     (Client.loadEncryptedTotalCatch chainId codeUnknown msg).rethrown = false) ∧
    ((Client.loadExpenseRecordsCatch msg).surfacedMessage = none ∧
     (Client.loadExpenseRecordsCatch msg).rethrown = false) :=
  ⟨⟨rfl, rfl⟩, ⟨rfl, rfl⟩, ⟨rfl, rfl⟩, ⟨rfl, rfl⟩, ⟨rfl, rfl⟩⟩

/-- C10: in every reachable contract state, `hasInitialized(user)` is true
exactly when `getExpenseRecordCount(user) > 0`, and once set by the
first successful add the flag is never reset by any later transactions. -/
theorem C10_initialized_iff_records (self : Nat) (txs more : List BuildExpenseLedger.Tx)
    (u : Nat) :
    (hasInitialized (runTrace self txs (initState, initEnv)).1 u = true ↔
      0 < getExpenseRecordCount (runTrace self txs (initState, initEnv)).1 u) ∧
    (hasInitialized (runTrace self txs (initState, initEnv)).1 u = true →
      hasInitialized (runTrace self (txs ++ more) (initState, initEnv)).1 u = true) := by
  have base : ∀ v, initState.hasInitialized v = true ↔
      0 < (initState.expenseRecords v).length := by
    intro v
    simp [initState]
  obtain ⟨hiff, hmono⟩ := runTrace_initCount self txs initState initEnv initWf base
  refine ⟨hiff u, ?_⟩
  intro hu
  rw [runTrace_append]
  have hwfp : Wf (runTrace self txs (initState, initEnv)).1
      (runTrace self txs (initState, initEnv)).2 :=
    runTrace_wf self txs (initState, initEnv) initWf
  obtain ⟨-, hmono2⟩ := runTrace_initCount self more
    (runTrace self txs (initState, initEnv)).1 (runTrace self txs (initState, initEnv)).2
    hwfp hiff
  have := hmono2 u hu
  simpa using this

/-- C10 witness: user 1 initializes with a successful add; after a later
transaction from user 2 the flag is still set and matches a positive
record count. -/
theorem C10_initialized_iff_records_witness :
    (hasInitialized (runTrace 7 [⟨1, 10, ⟨100, true⟩, "materials"⟩]
        (initState, initEnv)).1 1 = true ↔
      0 < getExpenseRecordCount (runTrace 7 [⟨1, 10, ⟨100, true⟩, "materials"⟩]
        (initState, initEnv)).1 1) ∧
    hasInitialized (runTrace 7
        ([⟨1, 10, ⟨100, true⟩, "materials"⟩] ++ [⟨2, 20, ⟨50, true⟩, "labor"⟩])
        (initState, initEnv)).1 1 = true :=
  ⟨(C10_initialized_iff_records 7 [⟨1, 10, ⟨100, true⟩, "materials"⟩]
      [⟨2, 20, ⟨50, true⟩, "labor"⟩] 1).1,
   (C10_initialized_iff_records 7 [⟨1, 10, ⟨100, true⟩, "materials"⟩]
      [⟨2, 20, ⟨50, true⟩, "labor"⟩] 1).2 (by decide)⟩
